import Mathlib

/-!
Verification of the `bun-mock-prisma` mocking shim (`src/index.ts`).

The TypeScript source builds a Prisma-client stand-in out of two JS `Map`s
(`mockCache`, `transactionCache`) and two `Proxy` handlers
(`createMainHandler`, `createModelHandler`).  We embed that program as a
state-passing Lean development:

* object identity (`===` in JS) is modelled by allocation ids (`Nat`) into an
  explicit heap (an association list `Nat × Obj`);
* the two `Map`s become association lists `String × Nat` whose values are
  heap ids;
* the two proxy handlers become the functions `mainGet` / `modelGet`;
* bun's `mock()` objects (an external dependency of the source) are modelled
  from the spec: a callable with a mutable behavior (default: resolve to
  null; configurable to resolve or reject with a fixed value) and an ordered
  call history.
-/

namespace BunMockPrisma

/-- Opaque runtime values handed to and returned from stubs.  `Value.null`
is the `null` that the default implementation `mock(() => null)` returns;
`Value.mk n` stands for any other distinguishable JS value. -/
inductive Value
  | null
  | mk (n : Nat)
  deriving DecidableEq

/-- Modelled from the spec: the mutable behavior of a bun `mock()` object
(the `Mock` type of `bun:test`, an external dependency not in `src/`).  The
spec describes it as "default: returns a null/empty result; configurable to
return a queued fixed value, a queued rejection".  `MockBehavior.default`
is the implementation `() => null` installed by `createModelHandler`. -/
inductive MockBehavior
  | default
  | resolve (v : Value)
  | reject (e : Value)
  deriving DecidableEq

/-- The settled result a caller observes when awaiting a stub invocation. -/
inductive Outcome
  | resolved (v : Value)
  | rejected (e : Value)
  deriving DecidableEq

/-- Heap objects of the embedded program:
* `mock beh calls` — an operation stub created by `createModelHandler`
  (`mock(() => null)`), with its current behavior and its call history;
* `modelProxy storage` — a model stand-in `new Proxy({}, createModelHandler(storage))`;
  the closed-over `storage` map is one of the two caches, tagged by a `Bool`
  (`true` = `transactionCache`, `false` = `mockCache`);
* `mainProxy isTransaction` — a client proxy `new Proxy({}, createMainHandler(isTransaction))`;
* `txnEntry calls` — the `mock(async (fn) => ...)` returned for a read of
  `$transaction`, with the number of calls it has recorded. -/
inductive Obj
  | mock (beh : MockBehavior) (calls : List Value)
  | modelProxy (storage : Bool)
  | mainProxy (isTransaction : Bool)
  | txnEntry (calls : Nat)
  deriving DecidableEq

/-- The mutable state owned by one `createPrismaMock()` invocation: a fresh-id
counter and heap (modelling JS object allocation and identity), and the two
closed-over caches `mockCache` and `transactionCache`. -/
structure St where
  nextId : Nat
  heap : List (Nat × Obj)
  mockCache : List (String × Nat)
  transactionCache : List (String × Nat)
  deriving DecidableEq

/-- Lookup in an association list; first binding wins, like `Map.get`. -/
def assocGet [DecidableEq κ] : List (κ × α) → κ → Option α
  | [], _ => none
  | (k, v) :: rest, k' => if k = k' then some v else assocGet rest k'

/-- Update or insert in an association list, like `Map.set`. -/
def assocSet [DecidableEq κ] : List (κ × α) → κ → α → List (κ × α)
  | [], k, v => [(k, v)]
  | (k', v') :: rest, k, v =>
      if k' = k then (k, v) :: rest else (k', v') :: assocSet rest k v

/-- The cache a handler closes over: `isTransaction ? transactionCache : mockCache`. -/
def cacheOf : Bool → St → List (String × Nat)
  | true, st => st.transactionCache
  | false, st => st.mockCache

/-- Replace the designated cache. -/
def setCache : Bool → St → List (String × Nat) → St
  | true, st, c => { st with transactionCache := c }
  | false, st, c => { st with mockCache := c }

/-- Result of a property read through one of the proxy handlers:
`undef` is JS `undefined`; `objRef id` is a reference to a heap object;
`resetFn` is the `() => resetMockCalls(...)` closure; `hostProp` stands for
a property of a host-level object (e.g. reading a key of a bun `Mock`
function itself), which this model does not inspect further. -/
inductive ReadRes
  | undef
  | objRef (id : Nat)
  | resetFn
  | hostProp
  deriving DecidableEq

/-- The `get` trap of `createModelHandler(storage)`:
return `undefined` for `"then"`; otherwise get-or-create a `mock(() => null)`
in the closed-over `storage` map. -/
def modelGet (storage : Bool) (st : St) (prop : String) : ReadRes × St :=
  if prop = "then" then (ReadRes.undef, st)
  else
    match assocGet (cacheOf storage st) prop with
    | some id => (ReadRes.objRef id, st)
    | none =>
        let id := st.nextId
        (ReadRes.objRef id,
          setCache storage
            { st with
                nextId := id + 1,
                heap := assocSet st.heap id (Obj.mock MockBehavior.default []) }
            (assocSet (cacheOf storage st) prop id))

/-- The `get` trap of `createMainHandler(isTransaction)`:
a read of `"$transaction"` builds a fresh `mock(async (fn) => ...)` (a new
heap object on every read); `"_reset"` returns the reset closure; any other
property is treated as a model name and get-or-creates a
`new Proxy({}, createModelHandler(storage))` in `storage` — note that
`storage` here is the same map the model handler will use for its
operation stubs. -/
def mainGet (isTransaction : Bool) (st : St) (prop : String) : ReadRes × St :=
  if prop = "$transaction" then
    let id := st.nextId
    (ReadRes.objRef id,
      { st with nextId := id + 1, heap := assocSet st.heap id (Obj.txnEntry 0) })
  else if prop = "_reset" then (ReadRes.resetFn, st)
  else
    match assocGet (cacheOf isTransaction st) prop with
    | some id => (ReadRes.objRef id, st)
    | none =>
        let id := st.nextId
        (ReadRes.objRef id,
          setCache isTransaction
            { st with
                nextId := id + 1,
                heap := assocSet st.heap id (Obj.modelProxy isTransaction) }
            (assocSet (cacheOf isTransaction st) prop id))

/-- Modelled from the spec: invoking a bun `Mock` records the argument in its
call history and produces the settled result dictated by its behavior. -/
def outcomeOf : MockBehavior → Outcome
  | MockBehavior.default => Outcome.resolved Value.null
  | MockBehavior.resolve v => Outcome.resolved v
  | MockBehavior.reject e => Outcome.rejected e

/-- Modelled from the spec: call the stub at `id` with one argument.  Returns
`none` if `id` does not hold an operation stub. -/
def invokeStub (st : St) (id : Nat) (arg : Value) : Option Outcome × St :=
  match assocGet st.heap id with
  | some (Obj.mock beh calls) =>
      (some (outcomeOf beh),
        { st with heap := assocSet st.heap id (Obj.mock beh (calls ++ [arg])) })
  | _ => (none, st)

/-- Modelled from the spec: `mockResolvedValue` — configure the stub at `id`
to resolve to `v` on every future call; the call history is kept. -/
def configureResolve (st : St) (id : Nat) (v : Value) : St :=
  match assocGet st.heap id with
  | some (Obj.mock _ calls) =>
      { st with heap := assocSet st.heap id (Obj.mock (MockBehavior.resolve v) calls) }
  | _ => st

/-- Modelled from the spec: `mockRejectedValue` — configure the stub at `id`
to reject with `e` on every future call. -/
def configureReject (st : St) (id : Nat) (e : Value) : St :=
  match assocGet st.heap id with
  | some (Obj.mock _ calls) =>
      { st with heap := assocSet st.heap id (Obj.mock (MockBehavior.reject e) calls) }
  | _ => st

/-- Record one call on a `$transaction` entry stub. -/
def recordTxnCall (st : St) (id : Nat) : St :=
  match assocGet st.heap id with
  | some (Obj.txnEntry n) => { st with heap := assocSet st.heap id (Obj.txnEntry (n + 1)) }
  | _ => st

/-- The `new Proxy({}, createMainHandler(true))` step inside the
`$transaction` implementation: allocate a transaction-scoped client. -/
def newTxClient (st : St) : Nat × St :=
  (st.nextId,
    { st with
        nextId := st.nextId + 1,
        heap := assocSet st.heap st.nextId (Obj.mainProxy true) })

/-- Invoke the `$transaction` stub at `stubId` with callback `fn`: record the
call, build the transaction-scoped client, and return `fn`'s result on it —
`return fn(txMock)` in the source. -/
def txnInvoke {α : Type} (fn : Nat → St → α × St) (st : St) (stubId : Nat) : α × St :=
  let st1 := recordTxnCall st stubId
  let (txId, st2) := newTxClient st1
  fn txId st2

/-- The state allocated by `createPrismaMock()`: empty caches, empty heap.
The root client itself is the proxy whose reads are `mainGet false`. -/
def initSt : St := ⟨0, [], [], []⟩

/-- Read `client[model][op]`: dispatch `model` through the main handler, then
`op` through the handler of the object found.  In every reachable state the
cached value under a name is either a model proxy (then the model handler
runs) or an operation mock (then the read yields a host-level property of
the `Mock` function, which we do not model further, `ReadRes.hostProp`). -/
def clientRead (isTransaction : Bool) (st : St) (model op : String) : ReadRes × St :=
  match mainGet isTransaction st model with
  | (ReadRes.objRef pid, st1) =>
      match assocGet st1.heap pid with
      | some (Obj.modelProxy s) => modelGet s st1 op
      | _ => (ReadRes.hostProp, st1)
  | (_, st1) => (ReadRes.hostProp, st1)

/-- The hard-coded operation-name list swept by `resetMockCalls`. -/
def commonMethods : List String :=
  ["findMany", "findUnique", "findFirst", "create", "update",
   "upsert", "delete", "deleteMany", "updateMany", "count"]

/-- Execute `value.mock.calls = []` on the object at `id`, if it is a mock;
the configured behavior is kept. -/
def clearCalls (st : St) (id : Nat) : St :=
  match assocGet st.heap id with
  | some (Obj.mock beh _) => { st with heap := assocSet st.heap id (Obj.mock beh []) }
  | _ => st

/-- One iteration of the `forEach` body of `resetMockCalls`: a mock value has
its call history cleared; a model-proxy value has each `commonMethods` name
read through its handler (which get-or-creates the stub) and that stub's
history cleared. -/
def sweepEntry (st : St) (id : Nat) : St :=
  match assocGet st.heap id with
  | some (Obj.mock _ _) => clearCalls st id
  | some (Obj.modelProxy s) =>
      commonMethods.foldl
        (fun acc m =>
          match modelGet s acc m with
          | (ReadRes.objRef mid, acc') => clearCalls acc' mid
          | (_, acc') => acc')
        st
  | _ => st

/-- The helper `resetMockCalls(mockCache, transactionCache)`: sweep the
values of both caches, then `clear()` both maps.  (JS `Map.forEach` would
also visit entries inserted by the sweep itself, but those are freshly
created mocks whose call history is already empty, so clearing them is a
no-op; folding over a snapshot of the values is observationally the same.) -/
def resetMockCalls (st : St) : St :=
  let st1 := (st.mockCache.map Prod.snd).foldl sweepEntry st
  let st2 := (st.transactionCache.map Prod.snd).foldl sweepEntry st1
  { st2 with mockCache := [], transactionCache := [] }

/-- Every id stored in a cache has already been allocated. -/
abbrev cacheWF (c : List (String × Nat)) (n : Nat) : Prop :=
  ∀ p ∈ c, p.2 < n

/-- Well-formedness of a state: both caches only hold allocated ids.  Holds
in `initSt` and is preserved by every operation. -/
abbrev wf (st : St) : Prop :=
  ∀ c : Bool, cacheWF (cacheOf c st) st.nextId

/-- A test-visible action on the mock client, used to talk about "every
subsequent access" in the claims.  A transaction callback's body is itself a
sequence of `read true` (and configure/invoke) actions, since the
transaction-scoped client dispatches through `mainGet true`. -/
inductive Op
  | read (isTransaction : Bool) (model op : String)
  | configResolve (id : Nat) (v : Value)
  | configReject (id : Nat) (e : Value)
  | invoke (id : Nat) (arg : Value)
  | txn
  | reset
  deriving DecidableEq

/-- State effect of one action. -/
def runOp (st : St) : Op → St
  | Op.read b m o => (clientRead b st m o).2
  | Op.configResolve id v => configureResolve st id v
  | Op.configReject id e => configureReject st id e
  | Op.invoke id a => (invokeStub st id a).2
  | Op.txn =>
      match mainGet false st "$transaction" with
      | (ReadRes.objRef sid, st1) => (txnInvoke (fun _ s => ((), s)) st1 sid).2
      | (_, st1) => st1
  | Op.reset => resetMockCalls st

/-- Run a sequence of actions. -/
def runOps (st : St) (ops : List Op) : St := ops.foldl runOp st

/-- `true` for every action except the reset operation. -/
def notReset : Op → Bool
  | Op.reset => false
  | _ => true

/-- `true` for actions that neither reconfigure the stub at `id` nor reset. -/
def preservesStub (id : Nat) : Op → Bool
  | Op.configResolve j _ => decide (j ≠ id)
  | Op.configReject j _ => decide (j ≠ id)
  | Op.reset => false
  | _ => true

/-! ### Association-list lemmas -/

theorem assocGet_assocSet_self [DecidableEq κ] (l : List (κ × α)) (k : κ) (v : α) :
    assocGet (assocSet l k v) k = some v := by
  induction l with
  | nil => simp [assocGet, assocSet]
  | cons p rest ih =>
      obtain ⟨k0, v0⟩ := p
      by_cases h0 : k0 = k
      · subst h0; simp [assocGet, assocSet]
      · simp [assocGet, assocSet, h0, ih]

theorem assocGet_assocSet_ne [DecidableEq κ] {l : List (κ × α)} {k k' : κ} (v : α)
    (h : k ≠ k') : assocGet (assocSet l k v) k' = assocGet l k' := by
  induction l with
  | nil => simp [assocGet, assocSet, h]
  | cons p rest ih =>
      obtain ⟨k0, v0⟩ := p
      by_cases h0 : k0 = k
      · subst h0; simp [assocGet, assocSet, h]
      · simp only [assocGet, assocSet, if_neg h0]
        by_cases h1 : k0 = k'
        · simp [assocGet, h1]
        · simp [assocGet, h1, ih]

theorem assocGet_mem [DecidableEq κ] {l : List (κ × α)} {k : κ} {v : α}
    (h : assocGet l k = some v) : (k, v) ∈ l := by
  induction l with
  | nil => simp [assocGet] at h
  | cons p rest ih =>
      obtain ⟨k0, v0⟩ := p
      by_cases h0 : k0 = k
      · subst h0
        simp [assocGet] at h
        simp [h]
      · simp only [assocGet, if_neg h0] at h
        exact List.mem_cons_of_mem _ (ih h)

theorem mem_assocSet [DecidableEq κ] {l : List (κ × α)} {k : κ} {v : α} {p : κ × α}
    (h : p ∈ assocSet l k v) : p ∈ l ∨ p = (k, v) := by
  induction l with
  | nil => simp [assocSet] at h; simp [h]
  | cons q rest ih =>
      obtain ⟨k0, v0⟩ := q
      by_cases h0 : k0 = k
      · subst h0
        simp only [assocSet, if_pos rfl] at h
        rcases List.mem_cons.mp h with h1 | h1
        · right; exact h1
        · left; exact List.mem_cons_of_mem _ h1
      · simp only [assocSet, if_neg h0] at h
        rcases List.mem_cons.mp h with h1 | h1
        · left; exact List.mem_cons.mpr (Or.inl h1)
        · rcases ih h1 with h2 | h2
          · left; exact List.mem_cons_of_mem _ h2
          · right; exact h2

/-! ### Small state-accessor lemmas -/

@[simp] theorem setCache_heap (b : Bool) (st : St) (c : List (String × Nat)) :
    (setCache b st c).heap = st.heap := by cases b <;> rfl

@[simp] theorem setCache_nextId (b : Bool) (st : St) (c : List (String × Nat)) :
    (setCache b st c).nextId = st.nextId := by cases b <;> rfl

@[simp] theorem cacheOf_setCache_self (b : Bool) (st : St) (c : List (String × Nat)) :
    cacheOf b (setCache b st c) = c := by cases b <;> rfl

theorem cacheOf_setCache_ne {b b' : Bool} (st : St) (c : List (String × Nat))
    (h : b' ≠ b) : cacheOf b' (setCache b st c) = cacheOf b' st := by
  cases b <;> cases b' <;> simp_all [cacheOf, setCache]

@[simp] theorem cacheOf_withNextHeap (c : Bool) (st : St) (n : Nat) (h : List (Nat × Obj)) :
    cacheOf c { st with nextId := n, heap := h } = cacheOf c st := by cases c <;> rfl

@[simp] theorem cacheOf_withHeap (c : Bool) (st : St) (h : List (Nat × Obj)) :
    cacheOf c { st with heap := h } = cacheOf c st := by cases c <;> rfl

/-! ### Well-formedness -/

theorem cacheWF_mono {c : List (String × Nat)} {n m : Nat} (h : cacheWF c n) (hnm : n ≤ m) :
    cacheWF c m := fun p hp => lt_of_lt_of_le (h p hp) hnm

theorem cacheWF_assocSet {c : List (String × Nat)} {n : Nat} (h : cacheWF c n) (k : String)
    {i m : Nat} (hi : i < m) (hnm : n ≤ m) : cacheWF (assocSet c k i) m := by
  intro p hp
  rcases mem_assocSet hp with h1 | h1
  · exact lt_of_lt_of_le (h p h1) hnm
  · subst h1; exact hi

theorem wf_cache_lt {st : St} {c : Bool} {k : String} {i : Nat} (hwf : wf st)
    (h : assocGet (cacheOf c st) k = some i) : i < st.nextId :=
  hwf c _ (assocGet_mem h)

theorem wf_initSt : wf initSt := by decide

/-! ### Preservation lemmas for `modelGet` -/

theorem modelGet_nextId_le (s : Bool) (st : St) (p : String) :
    st.nextId ≤ (modelGet s st p).2.nextId := by
  unfold modelGet
  split
  · exact le_refl _
  · split
    · exact le_refl _
    · simp

theorem modelGet_heap_lt (s : Bool) (st : St) (p : String) {i : Nat} (hi : i < st.nextId) :
    assocGet (modelGet s st p).2.heap i = assocGet st.heap i := by
  unfold modelGet
  split
  · rfl
  · split
    · rfl
    · simp only [setCache_heap]
      exact assocGet_assocSet_ne _ (Nat.ne_of_gt hi)

theorem modelGet_cache_mono (s : Bool) (st : St) (p : String) {c : Bool} {k : String} {i : Nat}
    (h : assocGet (cacheOf c st) k = some i) :
    assocGet (cacheOf c (modelGet s st p).2) k = some i := by
  unfold modelGet
  split
  · exact h
  · split
    · exact h
    · rename_i hnone
      by_cases hcs : c = s
      · subst hcs
        rw [cacheOf_setCache_self]
        have hpk : p ≠ k := by
          intro he; subst he; rw [h] at hnone; exact Option.noConfusion hnone
        rw [assocGet_assocSet_ne _ hpk]
        exact h
      · rw [cacheOf_setCache_ne _ _ hcs]
        simpa using h

theorem modelGet_wf (s : Bool) (st : St) (p : String) (hwf : wf st) :
    wf (modelGet s st p).2 := by
  unfold modelGet
  split
  · exact hwf
  · split
    · exact hwf
    · intro c
      by_cases hcs : c = s
      · subst hcs
        rw [cacheOf_setCache_self, setCache_nextId]
        exact cacheWF_assocSet (hwf c) p (Nat.lt_succ_self _) (Nat.le_succ _)
      · rw [cacheOf_setCache_ne _ _ hcs, setCache_nextId]
        simp only [cacheOf_withNextHeap]
        exact cacheWF_mono (hwf c) (Nat.le_succ _)

/-! ### Preservation lemmas for `mainGet` -/

theorem mainGet_nextId_le (b : Bool) (st : St) (p : String) :
    st.nextId ≤ (mainGet b st p).2.nextId := by
  unfold mainGet
  split
  · simp
  · split
    · exact le_refl _
    · split
      · exact le_refl _
      · simp

theorem mainGet_heap_lt (b : Bool) (st : St) (p : String) {i : Nat} (hi : i < st.nextId) :
    assocGet (mainGet b st p).2.heap i = assocGet st.heap i := by
  unfold mainGet
  split
  · exact assocGet_assocSet_ne _ (Nat.ne_of_gt hi)
  · split
    · rfl
    · split
      · rfl
      · simp only [setCache_heap]
        exact assocGet_assocSet_ne _ (Nat.ne_of_gt hi)

theorem mainGet_cache_mono (b : Bool) (st : St) (p : String) {c : Bool} {k : String} {i : Nat}
    (h : assocGet (cacheOf c st) k = some i) :
    assocGet (cacheOf c (mainGet b st p).2) k = some i := by
  unfold mainGet
  split
  · simpa using h
  · split
    · exact h
    · split
      · exact h
      · rename_i hnone
        by_cases hcb : c = b
        · subst hcb
          rw [cacheOf_setCache_self]
          have hpk : p ≠ k := by
            intro he; subst he; rw [h] at hnone; exact Option.noConfusion hnone
          rw [assocGet_assocSet_ne _ hpk]
          exact h
        · rw [cacheOf_setCache_ne _ _ hcb]
          simpa using h

theorem mainGet_wf (b : Bool) (st : St) (p : String) (hwf : wf st) :
    wf (mainGet b st p).2 := by
  unfold mainGet
  split
  · intro c
    simp only [cacheOf_withNextHeap]
    exact cacheWF_mono (hwf c) (Nat.le_succ _)
  · split
    · exact hwf
    · split
      · exact hwf
      · intro c
        by_cases hcb : c = b
        · subst hcb
          rw [cacheOf_setCache_self, setCache_nextId]
          exact cacheWF_assocSet (hwf c) p (Nat.lt_succ_self _) (Nat.le_succ _)
        · rw [cacheOf_setCache_ne _ _ hcb, setCache_nextId]
          simp only [cacheOf_withNextHeap]
          exact cacheWF_mono (hwf c) (Nat.le_succ _)

/-! ### Preservation lemmas for the heap-writing primitives -/

theorem configureResolve_nextId (st : St) (j : Nat) (v : Value) :
    (configureResolve st j v).nextId = st.nextId := by
  unfold configureResolve; split <;> rfl

theorem configureResolve_cacheOf (c : Bool) (st : St) (j : Nat) (v : Value) :
    cacheOf c (configureResolve st j v) = cacheOf c st := by
  unfold configureResolve; split <;> cases c <;> rfl

theorem configureResolve_heap_proxy {st : St} {i : Nat} {s : Bool} (j : Nat) (v : Value)
    (h : assocGet st.heap i = some (Obj.modelProxy s)) :
    assocGet (configureResolve st j v).heap i = some (Obj.modelProxy s) := by
  unfold configureResolve
  by_cases hij : j = i
  · subst hij
    rw [h]
    exact h
  · split
    · simpa [assocGet_assocSet_ne _ hij] using h
    · exact h

theorem configureResolve_heap_mock_ne {st : St} {i j : Nat} {beh : MockBehavior}
    {cs : List Value} (v : Value) (hij : j ≠ i)
    (h : assocGet st.heap i = some (Obj.mock beh cs)) :
    assocGet (configureResolve st j v).heap i = some (Obj.mock beh cs) := by
  unfold configureResolve
  split
  · simpa [assocGet_assocSet_ne _ hij] using h
  · exact h

theorem configureReject_nextId (st : St) (j : Nat) (e : Value) :
    (configureReject st j e).nextId = st.nextId := by
  unfold configureReject; split <;> rfl

theorem configureReject_cacheOf (c : Bool) (st : St) (j : Nat) (e : Value) :
    cacheOf c (configureReject st j e) = cacheOf c st := by
  unfold configureReject; split <;> cases c <;> rfl

theorem configureReject_heap_proxy {st : St} {i : Nat} {s : Bool} (j : Nat) (e : Value)
    (h : assocGet st.heap i = some (Obj.modelProxy s)) :
    assocGet (configureReject st j e).heap i = some (Obj.modelProxy s) := by
  unfold configureReject
  by_cases hij : j = i
  · subst hij
    rw [h]
    exact h
  · split
    · simpa [assocGet_assocSet_ne _ hij] using h
    · exact h

theorem configureReject_heap_mock_ne {st : St} {i j : Nat} {beh : MockBehavior}
    {cs : List Value} (e : Value) (hij : j ≠ i)
    (h : assocGet st.heap i = some (Obj.mock beh cs)) :
    assocGet (configureReject st j e).heap i = some (Obj.mock beh cs) := by
  unfold configureReject
  split
  · simpa [assocGet_assocSet_ne _ hij] using h
  · exact h

theorem invokeStub_nextId (st : St) (j : Nat) (a : Value) :
    (invokeStub st j a).2.nextId = st.nextId := by
  unfold invokeStub; split <;> rfl

theorem invokeStub_cacheOf (c : Bool) (st : St) (j : Nat) (a : Value) :
    cacheOf c (invokeStub st j a).2 = cacheOf c st := by
  unfold invokeStub; split <;> cases c <;> rfl

theorem invokeStub_heap_proxy {st : St} {i : Nat} {s : Bool} (j : Nat) (a : Value)
    (h : assocGet st.heap i = some (Obj.modelProxy s)) :
    assocGet (invokeStub st j a).2.heap i = some (Obj.modelProxy s) := by
  unfold invokeStub
  by_cases hij : j = i
  · subst hij
    rw [h]
    exact h
  · split
    · simpa [assocGet_assocSet_ne _ hij] using h
    · exact h

theorem invokeStub_heap_mock {st : St} {i : Nat} {beh : MockBehavior} {cs : List Value}
    (j : Nat) (a : Value) (h : assocGet st.heap i = some (Obj.mock beh cs)) :
    ∃ cs', assocGet (invokeStub st j a).2.heap i = some (Obj.mock beh cs') := by
  unfold invokeStub
  by_cases hij : j = i
  · subst hij
    rw [h]
    exact ⟨cs ++ [a], by simpa using assocGet_assocSet_self st.heap j _⟩
  · split
    · exact ⟨cs, by simpa [assocGet_assocSet_ne _ hij] using h⟩
    · exact ⟨cs, h⟩

theorem recordTxnCall_nextId (st : St) (j : Nat) :
    (recordTxnCall st j).nextId = st.nextId := by
  unfold recordTxnCall; split <;> rfl

theorem recordTxnCall_cacheOf (c : Bool) (st : St) (j : Nat) :
    cacheOf c (recordTxnCall st j) = cacheOf c st := by
  unfold recordTxnCall; split <;> cases c <;> rfl

theorem recordTxnCall_heap_proxy {st : St} {i : Nat} {s : Bool} (j : Nat)
    (h : assocGet st.heap i = some (Obj.modelProxy s)) :
    assocGet (recordTxnCall st j).heap i = some (Obj.modelProxy s) := by
  unfold recordTxnCall
  by_cases hij : j = i
  · subst hij
    rw [h]
    exact h
  · split
    · simpa [assocGet_assocSet_ne _ hij] using h
    · exact h

theorem recordTxnCall_heap_mock {st : St} {i : Nat} {beh : MockBehavior} {cs : List Value}
    (j : Nat) (h : assocGet st.heap i = some (Obj.mock beh cs)) :
    assocGet (recordTxnCall st j).heap i = some (Obj.mock beh cs) := by
  unfold recordTxnCall
  by_cases hij : j = i
  · subst hij
    rw [h]
    exact h
  · split
    · simpa [assocGet_assocSet_ne _ hij] using h
    · exact h

theorem clearCalls_nextId (st : St) (j : Nat) :
    (clearCalls st j).nextId = st.nextId := by
  unfold clearCalls; split <;> rfl

theorem clearCalls_cacheOf (c : Bool) (st : St) (j : Nat) :
    cacheOf c (clearCalls st j) = cacheOf c st := by
  unfold clearCalls; split <;> cases c <;> rfl

theorem newTxClient_nextId (st : St) :
    (newTxClient st).2.nextId = st.nextId + 1 := rfl

theorem newTxClient_cacheOf (c : Bool) (st : St) :
    cacheOf c (newTxClient st).2 = cacheOf c st := by cases c <;> rfl

theorem newTxClient_heap_lt {st : St} {i : Nat} (hi : i < st.nextId) :
    assocGet (newTxClient st).2.heap i = assocGet st.heap i := by
  unfold newTxClient
  exact assocGet_assocSet_ne _ (Nat.ne_of_gt hi)

/-- `wf` only looks at the caches and the counter, so it transfers along any
operation that leaves both unchanged. -/
theorem wf_congr {st st' : St} (hc : ∀ c, cacheOf c st' = cacheOf c st)
    (hn : st'.nextId = st.nextId) (hwf : wf st) : wf st' := by
  intro c
  rw [hc c, hn]
  exact hwf c

/-! ### Preservation lemmas for `clientRead` -/

theorem clientRead_nextId_le (b : Bool) (st : St) (M O : String) :
    st.nextId ≤ (clientRead b st M O).2.nextId := by
  unfold clientRead
  rcases hm : mainGet b st M with ⟨r, st1⟩
  have h1 : st.nextId ≤ st1.nextId := by
    have h := mainGet_nextId_le b st M
    rw [hm] at h
    exact h
  cases r with
  | objRef pid =>
      rcases ho : assocGet st1.heap pid with _ | o
      · simpa [ho] using h1
      · cases o with
        | modelProxy s =>
            simp only [ho]
            exact le_trans h1 (modelGet_nextId_le s st1 O)
        | mock beh cs => simpa [ho] using h1
        | mainProxy b' => simpa [ho] using h1
        | txnEntry n => simpa [ho] using h1
  | undef => exact h1
  | resetFn => exact h1
  | hostProp => exact h1

theorem clientRead_heap_lt (b : Bool) (st : St) (M O : String) {i : Nat}
    (hi : i < st.nextId) :
    assocGet (clientRead b st M O).2.heap i = assocGet st.heap i := by
  unfold clientRead
  rcases hm : mainGet b st M with ⟨r, st1⟩
  have h1 : assocGet st1.heap i = assocGet st.heap i := by
    have h := mainGet_heap_lt b st M hi
    rw [hm] at h
    exact h
  have hlt1 : i < st1.nextId := by
    have h := mainGet_nextId_le b st M
    rw [hm] at h
    exact lt_of_lt_of_le hi h
  cases r with
  | objRef pid =>
      rcases ho : assocGet st1.heap pid with _ | o
      · simpa [ho] using h1
      · cases o with
        | modelProxy s =>
            simp only [ho]
            rw [modelGet_heap_lt s st1 O hlt1]
            exact h1
        | mock beh cs => simpa [ho] using h1
        | mainProxy b' => simpa [ho] using h1
        | txnEntry n => simpa [ho] using h1
  | undef => exact h1
  | resetFn => exact h1
  | hostProp => exact h1

theorem clientRead_cache_mono (b : Bool) (st : St) (M O : String) {c : Bool} {k : String}
    {j : Nat} (h : assocGet (cacheOf c st) k = some j) :
    assocGet (cacheOf c (clientRead b st M O).2) k = some j := by
  unfold clientRead
  rcases hm : mainGet b st M with ⟨r, st1⟩
  have h1 : assocGet (cacheOf c st1) k = some j := by
    have hh := mainGet_cache_mono b st M h
    rw [hm] at hh
    exact hh
  cases r with
  | objRef pid =>
      rcases ho : assocGet st1.heap pid with _ | o
      · simpa [ho] using h1
      · cases o with
        | modelProxy s =>
            simp only [ho]
            exact modelGet_cache_mono s st1 O h1
        | mock beh cs => simpa [ho] using h1
        | mainProxy b' => simpa [ho] using h1
        | txnEntry n => simpa [ho] using h1
  | undef => exact h1
  | resetFn => exact h1
  | hostProp => exact h1

theorem clientRead_wf (b : Bool) (st : St) (M O : String) (hwf : wf st) :
    wf (clientRead b st M O).2 := by
  unfold clientRead
  rcases hm : mainGet b st M with ⟨r, st1⟩
  have h1 : wf st1 := by
    have hh := mainGet_wf b st M hwf
    rw [hm] at hh
    exact hh
  cases r with
  | objRef pid =>
      rcases ho : assocGet st1.heap pid with _ | o
      · simpa [ho] using h1
      · cases o with
        | modelProxy s =>
            simp only [ho]
            exact modelGet_wf s st1 O h1
        | mock beh cs => simpa [ho] using h1
        | mainProxy b' => simpa [ho] using h1
        | txnEntry n => simpa [ho] using h1
  | undef => exact h1
  | resetFn => exact h1
  | hostProp => exact h1

/-! ### Preservation lemmas for the reset sweep -/

theorem foldl_nextId_le {β : Type} (f : St → β → St)
    (hstep : ∀ s x, s.nextId ≤ (f s x).nextId) :
    ∀ (l : List β) (s : St), s.nextId ≤ (List.foldl f s l).nextId := by
  intro l
  induction l with
  | nil => intro s; exact le_refl _
  | cons x rest ih => intro s; exact le_trans (hstep s x) (ih (f s x))

theorem sweepStep_nextId_le (s : Bool) (acc : St) (m : String) :
    acc.nextId ≤
      (match modelGet s acc m with
        | (ReadRes.objRef mid, acc') => clearCalls acc' mid
        | (_, acc') => acc').nextId := by
  rcases hg : modelGet s acc m with ⟨r, acc'⟩
  have h1 : acc.nextId ≤ acc'.nextId := by
    have h := modelGet_nextId_le s acc m
    rw [hg] at h
    exact h
  cases r with
  | objRef mid => simpa [clearCalls_nextId] using h1
  | undef => exact h1
  | resetFn => exact h1
  | hostProp => exact h1

theorem sweepEntry_nextId_le (st : St) (j : Nat) :
    st.nextId ≤ (sweepEntry st j).nextId := by
  unfold sweepEntry
  rcases ho : assocGet st.heap j with _ | o
  · exact le_refl _
  · cases o with
    | mock beh cs => simp [clearCalls_nextId]
    | modelProxy s =>
        exact foldl_nextId_le _ (fun acc m => sweepStep_nextId_le s acc m) commonMethods st
    | mainProxy b => exact le_refl _
    | txnEntry n => exact le_refl _

theorem resetMockCalls_caches (st : St) :
    (resetMockCalls st).mockCache = [] ∧ (resetMockCalls st).transactionCache = [] := by
  unfold resetMockCalls
  exact ⟨rfl, rfl⟩

theorem resetMockCalls_wf (st : St) : wf (resetMockCalls st) := by
  intro c
  cases c <;> simp [resetMockCalls, cacheWF, cacheOf]

theorem resetMockCalls_nextId_le (st : St) :
    st.nextId ≤ (resetMockCalls st).nextId := by
  unfold resetMockCalls
  have h1 := foldl_nextId_le sweepEntry sweepEntry_nextId_le (st.mockCache.map Prod.snd) st
  have h2 := foldl_nextId_le sweepEntry sweepEntry_nextId_le (st.transactionCache.map Prod.snd)
    ((st.mockCache.map Prod.snd).foldl sweepEntry st)
  exact le_trans h1 h2

/-! ### Preservation along a trace of actions -/

theorem runOp_nextId_le (st : St) (op : Op) : st.nextId ≤ (runOp st op).nextId := by
  cases op with
  | read b m o => exact clientRead_nextId_le b st m o
  | configResolve id v => rw [runOp, configureResolve_nextId]
  | configReject id e => rw [runOp, configureReject_nextId]
  | invoke id a => rw [runOp, invokeStub_nextId]
  | txn =>
      rw [runOp]
      rcases hm : mainGet false st "$transaction" with ⟨r, st1⟩
      have h1 : st.nextId ≤ st1.nextId := by
        have h := mainGet_nextId_le false st "$transaction"
        rw [hm] at h
        exact h
      cases r with
      | objRef sid =>
          simp only [txnInvoke, newTxClient, recordTxnCall_nextId]
          exact le_trans h1 (le_trans (le_of_eq (recordTxnCall_nextId st1 sid).symm)
            (by simp [recordTxnCall_nextId]))
      | undef => exact h1
      | resetFn => exact h1
      | hostProp => exact h1
  | reset => exact resetMockCalls_nextId_le st

theorem runOp_wf (st : St) (op : Op) (hwf : wf st) : wf (runOp st op) := by
  cases op with
  | read b m o => exact clientRead_wf b st m o hwf
  | configResolve id v =>
      exact wf_congr (fun c => configureResolve_cacheOf c st id v)
        (configureResolve_nextId st id v) hwf
  | configReject id e =>
      exact wf_congr (fun c => configureReject_cacheOf c st id e)
        (configureReject_nextId st id e) hwf
  | invoke id a =>
      exact wf_congr (fun c => invokeStub_cacheOf c st id a) (invokeStub_nextId st id a) hwf
  | txn =>
      rw [runOp]
      rcases hm : mainGet false st "$transaction" with ⟨r, st1⟩
      have h1 : wf st1 := by
        have h := mainGet_wf false st "$transaction" hwf
        rw [hm] at h
        exact h
      cases r with
      | objRef sid =>
          simp only [txnInvoke, newTxClient]
          intro c
          rw [show cacheOf c { recordTxnCall st1 sid with
              nextId := (recordTxnCall st1 sid).nextId + 1,
              heap := assocSet (recordTxnCall st1 sid).heap (recordTxnCall st1 sid).nextId
                (Obj.mainProxy true) } = cacheOf c (recordTxnCall st1 sid) from by cases c <;> rfl]
          rw [recordTxnCall_cacheOf, recordTxnCall_nextId]
          exact cacheWF_mono (h1 c) (Nat.le_succ _)
      | undef => exact h1
      | resetFn => exact h1
      | hostProp => exact h1
  | reset => exact resetMockCalls_wf st

theorem runOp_cache_mono {st : St} {op : Op} (hop : notReset op = true) {c : Bool}
    {k : String} {j : Nat} (h : assocGet (cacheOf c st) k = some j) :
    assocGet (cacheOf c (runOp st op)) k = some j := by
  cases op with
  | read b m o => exact clientRead_cache_mono b st m o h
  | configResolve id v => rw [runOp, configureResolve_cacheOf]; exact h
  | configReject id e => rw [runOp, configureReject_cacheOf]; exact h
  | invoke id a => rw [runOp, invokeStub_cacheOf]; exact h
  | txn =>
      rw [runOp]
      rcases hm : mainGet false st "$transaction" with ⟨r, st1⟩
      have h1 : assocGet (cacheOf c st1) k = some j := by
        have hh := mainGet_cache_mono false st "$transaction" h
        rw [hm] at hh
        exact hh
      cases r with
      | objRef sid =>
          simp only [txnInvoke, newTxClient]
          rw [show cacheOf c { recordTxnCall st1 sid with
              nextId := (recordTxnCall st1 sid).nextId + 1,
              heap := assocSet (recordTxnCall st1 sid).heap (recordTxnCall st1 sid).nextId
                (Obj.mainProxy true) } = cacheOf c (recordTxnCall st1 sid) from by cases c <;> rfl]
          rw [recordTxnCall_cacheOf]
          exact h1
      | undef => exact h1
      | resetFn => exact h1
      | hostProp => exact h1
  | reset => exact absurd hop (by simp [notReset])

theorem runOp_heap_proxy {st : St} {op : Op} (hop : notReset op = true) {i : Nat} {s : Bool}
    (hi : i < st.nextId) (h : assocGet st.heap i = some (Obj.modelProxy s)) :
    assocGet (runOp st op).heap i = some (Obj.modelProxy s) := by
  cases op with
  | read b m o => rw [runOp, clientRead_heap_lt b st m o hi]; exact h
  | configResolve id v => exact configureResolve_heap_proxy id v h
  | configReject id e => exact configureReject_heap_proxy id e h
  | invoke id a => exact invokeStub_heap_proxy id a h
  | txn =>
      rw [runOp]
      rcases hm : mainGet false st "$transaction" with ⟨r, st1⟩
      have h1 : assocGet st1.heap i = some (Obj.modelProxy s) := by
        have hh := mainGet_heap_lt false st "$transaction" hi
        rw [hm] at hh
        rw [hh]
        exact h
      have hlt1 : i < st1.nextId := by
        have hh := mainGet_nextId_le false st "$transaction"
        rw [hm] at hh
        exact lt_of_lt_of_le hi hh
      cases r with
      | objRef sid =>
          simp only [txnInvoke, newTxClient]
          have h2 := recordTxnCall_heap_proxy sid h1
          rw [assocGet_assocSet_ne _ (by rw [recordTxnCall_nextId]; exact Nat.ne_of_gt hlt1)]
          exact h2
      | undef => exact h1
      | resetFn => exact h1
      | hostProp => exact h1
  | reset => exact absurd hop (by simp [notReset])

theorem runOp_heap_mock {st : St} {op : Op} {i : Nat} {beh : MockBehavior} {cs : List Value}
    (hop : preservesStub i op = true) (hi : i < st.nextId)
    (h : assocGet st.heap i = some (Obj.mock beh cs)) :
    ∃ cs', assocGet (runOp st op).heap i = some (Obj.mock beh cs') := by
  cases op with
  | read b m o =>
      refine ⟨cs, ?_⟩
      rw [runOp, clientRead_heap_lt b st m o hi]
      exact h
  | configResolve id v =>
      have hne : id ≠ i := by simpa [preservesStub] using hop
      exact ⟨cs, configureResolve_heap_mock_ne v hne h⟩
  | configReject id e =>
      have hne : id ≠ i := by simpa [preservesStub] using hop
      exact ⟨cs, configureReject_heap_mock_ne e hne h⟩
  | invoke id a => exact invokeStub_heap_mock id a h
  | txn =>
      rw [runOp]
      rcases hm : mainGet false st "$transaction" with ⟨r, st1⟩
      have h1 : assocGet st1.heap i = some (Obj.mock beh cs) := by
        have hh := mainGet_heap_lt false st "$transaction" hi
        rw [hm] at hh
        rw [hh]
        exact h
      have hlt1 : i < st1.nextId := by
        have hh := mainGet_nextId_le false st "$transaction"
        rw [hm] at hh
        exact lt_of_lt_of_le hi hh
      cases r with
      | objRef sid =>
          refine ⟨cs, ?_⟩
          simp only [txnInvoke, newTxClient]
          have h2 := recordTxnCall_heap_mock sid h1
          rw [assocGet_assocSet_ne _ (by rw [recordTxnCall_nextId]; exact Nat.ne_of_gt hlt1)]
          exact h2
      | undef => exact ⟨cs, h1⟩
      | resetFn => exact ⟨cs, h1⟩
      | hostProp => exact ⟨cs, h1⟩
  | reset => exact absurd hop (by simp [preservesStub])

theorem runOps_nextId_le (st : St) (ops : List Op) : st.nextId ≤ (runOps st ops).nextId := by
  induction ops generalizing st with
  | nil => exact le_refl _
  | cons op rest ih => exact le_trans (runOp_nextId_le st op) (ih (runOp st op))

theorem runOps_wf {st : St} (ops : List Op) (hwf : wf st) : wf (runOps st ops) := by
  induction ops generalizing st with
  | nil => exact hwf
  | cons op rest ih => exact ih (runOp_wf st op hwf)

theorem runOps_cache_mono {st : St} {ops : List Op} (hops : ops.all notReset = true)
    {c : Bool} {k : String} {j : Nat} (h : assocGet (cacheOf c st) k = some j) :
    assocGet (cacheOf c (runOps st ops)) k = some j := by
  induction ops generalizing st with
  | nil => exact h
  | cons op rest ih =>
      rw [List.all_cons, Bool.and_eq_true] at hops
      exact ih hops.2 (runOp_cache_mono hops.1 h)

theorem runOps_heap_proxy {st : St} {ops : List Op} (hops : ops.all notReset = true)
    {i : Nat} {s : Bool} (hi : i < st.nextId)
    (h : assocGet st.heap i = some (Obj.modelProxy s)) :
    assocGet (runOps st ops).heap i = some (Obj.modelProxy s) := by
  induction ops generalizing st with
  | nil => exact h
  | cons op rest ih =>
      rw [List.all_cons, Bool.and_eq_true] at hops
      exact ih hops.2 (lt_of_lt_of_le hi (runOp_nextId_le st op)) (runOp_heap_proxy hops.1 hi h)

theorem runOps_heap_mock {st : St} {ops : List Op} {i : Nat} {beh : MockBehavior}
    {cs : List Value} (hops : ops.all (preservesStub i) = true) (hi : i < st.nextId)
    (h : assocGet st.heap i = some (Obj.mock beh cs)) :
    ∃ cs', assocGet (runOps st ops).heap i = some (Obj.mock beh cs') := by
  induction ops generalizing st cs with
  | nil => exact ⟨cs, h⟩
  | cons op rest ih =>
      rw [List.all_cons, Bool.and_eq_true] at hops
      obtain ⟨cs1, h1⟩ := runOp_heap_mock hops.1 hi h
      exact ih hops.2 (lt_of_lt_of_le hi (runOp_nextId_le st op)) h1

/-! ### Characterization of a successful `client[model][op]` read -/

theorem clientRead_txn_fst (b : Bool) (st : St) (O : String) :
    (clientRead b st "$transaction" O).1 = ReadRes.hostProp := by
  unfold clientRead mainGet
  simp [assocGet_assocSet_self]

theorem clientRead_reset_fst (b : Bool) (st : St) (O : String) :
    (clientRead b st "_reset" O).1 = ReadRes.hostProp := by
  unfold clientRead mainGet
  rw [if_neg (by decide), if_pos rfl]

theorem mainGet_objRef {b : Bool} {st : St} {M : String} {pid : Nat} {st1 : St}
    (hwf : wf st) (h : mainGet b st M = (ReadRes.objRef pid, st1))
    (hM1 : M ≠ "$transaction") (hM2 : M ≠ "_reset") :
    assocGet (cacheOf b st1) M = some pid ∧ pid < st1.nextId := by
  unfold mainGet at h
  rw [if_neg hM1, if_neg hM2] at h
  cases hc : assocGet (cacheOf b st) M with
  | some j =>
      rw [hc] at h
      have h1 : j = pid := by simpa using congrArg Prod.fst h
      have h2 : st = st1 := congrArg Prod.snd h
      subst h1
      subst h2
      exact ⟨hc, wf_cache_lt hwf hc⟩
  | none =>
      rw [hc] at h
      have h1 : st.nextId = pid := by simpa using congrArg Prod.fst h
      have h2 := congrArg Prod.snd h
      simp only at h2
      constructor
      · rw [← h2, cacheOf_setCache_self, ← h1]
        exact assocGet_assocSet_self _ _ _
      · rw [← h2, setCache_nextId]
        simp only []
        rw [← h1]
        exact Nat.lt_succ_self _

theorem modelGet_cache_self {s : Bool} {st : St} {O : String} {id : Nat} {st' : St}
    (h : modelGet s st O = (ReadRes.objRef id, st')) :
    O ≠ "then" ∧ assocGet (cacheOf s st') O = some id := by
  unfold modelGet at h
  by_cases ht : O = "then"
  · rw [if_pos ht] at h
    exact absurd (congrArg Prod.fst h) (by simp)
  · rw [if_neg ht] at h
    refine ⟨ht, ?_⟩
    cases hc : assocGet (cacheOf s st) O with
    | some j =>
        rw [hc] at h
        have h1 : j = id := by simpa using congrArg Prod.fst h
        have h2 : st = st' := congrArg Prod.snd h
        subst h1
        subst h2
        exact hc
    | none =>
        rw [hc] at h
        have h1 : st.nextId = id := by simpa using congrArg Prod.fst h
        have h2 := congrArg Prod.snd h
        simp only at h2
        rw [← h2, cacheOf_setCache_self, ← h1]
        exact assocGet_assocSet_self _ _ _

/-- Anatomy of a successful stub read: it leaves the state well-formed and
installs/finds a model proxy under `M` in the handler's cache and the stub
under `O` in the proxy's own storage cache. -/
theorem clientRead_objRef {b : Bool} {st : St} {M O : String} {id : Nat} {st' : St}
    (hwf : wf st) (h : clientRead b st M O = (ReadRes.objRef id, st')) :
    wf st' ∧ M ≠ "$transaction" ∧ M ≠ "_reset" ∧ O ≠ "then" ∧
    ∃ pid s, assocGet (cacheOf b st') M = some pid ∧
      assocGet st'.heap pid = some (Obj.modelProxy s) ∧
      assocGet (cacheOf s st') O = some id := by
  have hwf' : wf st' := by
    have hh := clientRead_wf b st M O hwf
    rw [h] at hh
    exact hh
  have hM1 : M ≠ "$transaction" := by
    intro he
    subst he
    have hh := clientRead_txn_fst b st O
    rw [h] at hh
    simp at hh
  have hM2 : M ≠ "_reset" := by
    intro he
    subst he
    have hh := clientRead_reset_fst b st O
    rw [h] at hh
    simp at hh
  unfold clientRead at h
  rcases hm : mainGet b st M with ⟨r, st1⟩
  rw [hm] at h
  cases r with
  | objRef pid =>
      obtain ⟨hc1, hlt1⟩ := mainGet_objRef hwf hm hM1 hM2
      dsimp only at h
      rcases ho : assocGet st1.heap pid with _ | o
      · rw [ho] at h
        simp at h
      · cases o with
        | modelProxy s =>
            rw [ho] at h
            obtain ⟨hOt, hself⟩ := modelGet_cache_self h
            have hst' : (modelGet s st1 O).2 = st' := congrArg Prod.snd h
            refine ⟨hwf', hM1, hM2, hOt, pid, s, ?_, ?_, hself⟩
            · rw [← hst']
              exact modelGet_cache_mono s st1 O hc1
            · rw [← hst', modelGet_heap_lt s st1 O hlt1]
              exact ho
        | mock beh cs =>
            rw [ho] at h
            simp at h
        | mainProxy b' =>
            rw [ho] at h
            simp at h
        | txnEntry n =>
            rw [ho] at h
            simp at h
  | undef => simp at h
  | resetFn => simp at h
  | hostProp => simp at h

/-- A read whose path is fully cached returns the cached stub and does not
change the state at all. -/
theorem clientRead_of_cached {b : Bool} {st : St} {M O : String} {pid : Nat} {s : Bool}
    {id : Nat} (hM1 : M ≠ "$transaction") (hM2 : M ≠ "_reset") (hO : O ≠ "then")
    (h1 : assocGet (cacheOf b st) M = some pid)
    (h2 : assocGet st.heap pid = some (Obj.modelProxy s))
    (h3 : assocGet (cacheOf s st) O = some id) :
    clientRead b st M O = (ReadRes.objRef id, st) := by
  unfold clientRead mainGet modelGet
  rw [if_neg hM1, if_neg hM2, h1]
  simp only []
  rw [h2]
  simp only []
  rw [if_neg hO, h3]

/-- C2 (spec §3 "Model Stand-in" invariant; §8 property 1): once
`client[M][O]` has produced a stub, any later read of the same path — after
any reset-free sequence of further reads, configurations, invocations or
transaction entries — returns the very same stub instance (and changes
nothing). -/
theorem read_returns_cached_stub {b : Bool} {st : St} {M O : String} {id : Nat} {st' : St}
    {ops : List Op} (hwf : wf st) (h : clientRead b st M O = (ReadRes.objRef id, st'))
    (hops : ops.all notReset = true) :
    clientRead b (runOps st' ops) M O = (ReadRes.objRef id, runOps st' ops) := by
  obtain ⟨hwf', hM1, hM2, hO, pid, s, hc1, hp, hc2⟩ := clientRead_objRef hwf h
  have hlt : pid < st'.nextId := wf_cache_lt hwf' hc1
  exact clientRead_of_cached hM1 hM2 hO
    (runOps_cache_mono hops hc1)
    (runOps_heap_proxy hops hlt hp)
    (runOps_cache_mono hops hc2)

/-- Witness for C2 at a concrete trace: `user.create` is read, then a second
model is touched, the stub is configured and invoked; re-reading
`user.create` still yields the stub allocated first (id 1). -/
theorem read_returns_cached_stub_w :
    wf initSt ∧
    ([Op.read false "post" "findMany", Op.configResolve 1 (Value.mk 5),
        Op.invoke 1 Value.null, Op.txn].all notReset = true) ∧
    clientRead false
        (runOps (clientRead false initSt "user" "create").2
          [Op.read false "post" "findMany", Op.configResolve 1 (Value.mk 5),
            Op.invoke 1 Value.null, Op.txn]) "user" "create" =
      (ReadRes.objRef 1,
        runOps (clientRead false initSt "user" "create").2
          [Op.read false "post" "findMany", Op.configResolve 1 (Value.mk 5),
            Op.invoke 1 Value.null, Op.txn]) :=
  ⟨by decide, by decide,
    @read_returns_cached_stub false initSt "user" "create" 1
      ((clientRead false initSt "user" "create").2)
      [Op.read false "post" "findMany", Op.configResolve 1 (Value.mk 5),
        Op.invoke 1 Value.null, Op.txn]
      (by decide) (by decide) (by decide)⟩

/-! ### Unconfigured and configured stub behavior -/

theorem configureResolve_heap_self {st : St} {id : Nat} {beh : MockBehavior} {cs : List Value}
    (v : Value) (h : assocGet st.heap id = some (Obj.mock beh cs)) :
    assocGet (configureResolve st id v).heap id =
      some (Obj.mock (MockBehavior.resolve v) cs) := by
  unfold configureResolve
  rw [h]
  exact assocGet_assocSet_self _ _ _

theorem configureReject_heap_self {st : St} {id : Nat} {beh : MockBehavior} {cs : List Value}
    (e : Value) (h : assocGet st.heap id = some (Obj.mock beh cs)) :
    assocGet (configureReject st id e).heap id =
      some (Obj.mock (MockBehavior.reject e) cs) := by
  unfold configureReject
  rw [h]
  exact assocGet_assocSet_self _ _ _

theorem mainGet_cache_new {b : Bool} {st : St} {M : String} {r : ReadRes} {st1 : St}
    (h : mainGet b st M = (r, st1)) {c : Bool} {k : String} (hk : M ≠ k)
    (hnone : assocGet (cacheOf c st) k = none) :
    assocGet (cacheOf c st1) k = none := by
  unfold mainGet at h
  by_cases h1 : M = "$transaction"
  · rw [if_pos h1] at h
    have h2 := congrArg Prod.snd h
    simp only at h2
    rw [← h2]
    simpa using hnone
  · rw [if_neg h1] at h
    by_cases h2 : M = "_reset"
    · rw [if_pos h2] at h
      have h3 := congrArg Prod.snd h
      simp only at h3
      rw [← h3]
      exact hnone
    · rw [if_neg h2] at h
      cases hc : assocGet (cacheOf b st) M with
      | some j =>
          rw [hc] at h
          have h3 : st = st1 := congrArg Prod.snd h
          rw [← h3]
          exact hnone
      | none =>
          rw [hc] at h
          have h3 := congrArg Prod.snd h
          simp only at h3
          rw [← h3]
          by_cases hcb : c = b
          · subst hcb
            rw [cacheOf_setCache_self, assocGet_assocSet_ne _ hk]
            exact hnone
          · rw [cacheOf_setCache_ne _ _ hcb]
            simpa using hnone

/-- A successful read of an operation name absent from both caches
materializes a brand-new `mock(() => null)`: default behavior, empty call
history. -/
theorem clientRead_fresh_default {b : Bool} {st : St} {M O : String} {id : Nat}
    {st' : St} (hO : ∀ c : Bool, assocGet (cacheOf c st) O = none) (hMO : M ≠ O)
    (h : clientRead b st M O = (ReadRes.objRef id, st')) :
    assocGet st'.heap id = some (Obj.mock MockBehavior.default []) := by
  unfold clientRead at h
  rcases hm : mainGet b st M with ⟨r, st1⟩
  rw [hm] at h
  cases r with
  | objRef pid =>
      dsimp only at h
      rcases ho : assocGet st1.heap pid with _ | o
      · rw [ho] at h
        simp at h
      · cases o with
        | modelProxy s =>
            rw [ho] at h
            dsimp only at h
            have hO1 : assocGet (cacheOf s st1) O = none :=
              mainGet_cache_new hm hMO (hO s)
            unfold modelGet at h
            by_cases ht : O = "then"
            · rw [if_pos ht] at h
              simp at h
            · rw [if_neg ht, hO1] at h
              have hid : st1.nextId = id := by simpa using congrArg Prod.fst h
              have hst := congrArg Prod.snd h
              simp only at hst
              rw [← hst, setCache_heap, ← hid]
              exact assocGet_assocSet_self _ _ _
        | mock beh cs =>
            rw [ho] at h
            simp at h
        | mainProxy b' =>
            rw [ho] at h
            simp at h
        | txnEntry n =>
            rw [ho] at h
            simp at h
  | undef => simp at h
  | resetFn => simp at h
  | hostProp => simp at h

/-- C3 (spec §7; §8 property 2): a stub whose operation name has never been
touched before — so the read materializes it fresh as `mock(() => null)` —
resolves to null on any invocation and never rejects. -/
theorem unconfigured_stub_resolves_null {b : Bool} {st : St} {M O : String} {id : Nat}
    {st' : St} (arg : Value)
    (h1 : assocGet st.mockCache O = none)
    (h2 : assocGet st.transactionCache O = none)
    (hMO : M ≠ O)
    (h : clientRead b st M O = (ReadRes.objRef id, st')) :
    (invokeStub st' id arg).1 = some (Outcome.resolved Value.null) ∧
    ∀ e, (invokeStub st' id arg).1 ≠ some (Outcome.rejected e) := by
  have hO : ∀ c : Bool, assocGet (cacheOf c st) O = none := by
    intro c
    cases c
    · exact h1
    · exact h2
  have hh := clientRead_fresh_default hO hMO h
  constructor
  · unfold invokeStub
    rw [hh]
    simp [outcomeOf]
  · intro e hcon
    unfold invokeStub at hcon
    rw [hh] at hcon
    simp [outcomeOf] at hcon

/-- Witness for C3: the first-ever read of `user.create` yields a stub that
resolves to null and does not reject. -/
theorem unconfigured_stub_resolves_null_w :
    assocGet initSt.mockCache "create" = none ∧ ("user" : String) ≠ "create" ∧
    (invokeStub (clientRead false initSt "user" "create").2 1 (Value.mk 42)).1 =
      some (Outcome.resolved Value.null) :=
  ⟨by decide, by decide,
    (@unconfigured_stub_resolves_null false initSt "user" "create" 1
      ((clientRead false initSt "user" "create").2) (Value.mk 42)
      (by decide) (by decide) (by decide) (by decide)).1⟩

/-- C4 (spec §8 property 3): after `mockResolvedValue(v)` on a stub, every
later invocation resolves to `v`, across any trace of actions that neither
reconfigures that stub nor resets. -/
theorem configure_resolve_persists {st : St} {id : Nat} {beh : MockBehavior}
    {cs : List Value} {v : Value} {ops : List Op} (arg : Value)
    (hmock : assocGet st.heap id = some (Obj.mock beh cs))
    (hlt : id < st.nextId)
    (hops : ops.all (preservesStub id) = true) :
    (invokeStub (runOps (configureResolve st id v) ops) id arg).1 =
      some (Outcome.resolved v) := by
  have h1 := configureResolve_heap_self v hmock
  have hlt1 : id < (configureResolve st id v).nextId := by
    rw [configureResolve_nextId]
    exact hlt
  obtain ⟨cs1, h2⟩ := runOps_heap_mock hops hlt1 h1
  unfold invokeStub
  rw [h2]
  simp [outcomeOf]

/-- Witness for C4: configure stub 1 (`user.create`) to resolve to `mk 9`,
then invoke it and read other paths; it still resolves to `mk 9`. -/
theorem configure_resolve_persists_w :
    assocGet (clientRead false initSt "user" "create").2.heap 1 =
      some (Obj.mock MockBehavior.default []) ∧
    (invokeStub
        (runOps (configureResolve (clientRead false initSt "user" "create").2 1 (Value.mk 9))
          [Op.invoke 1 Value.null, Op.read false "user" "findMany", Op.txn])
        1 (Value.mk 3)).1 =
      some (Outcome.resolved (Value.mk 9)) :=
  ⟨by decide,
    @configure_resolve_persists ((clientRead false initSt "user" "create").2) 1
      MockBehavior.default [] (Value.mk 9)
      [Op.invoke 1 Value.null, Op.read false "user" "findMany", Op.txn]
      (Value.mk 3) (by decide) (by decide) (by decide)⟩

/-- C5 (spec §7; §8 property 4): after `mockRejectedValue(e)` on a stub,
every later invocation settles as a rejection carrying exactly `e` — the
configured failure is what the awaiting caller observes, never swallowed —
across any trace that neither reconfigures that stub nor resets.
(`Outcome` is the settled result seen when the invocation is awaited;
nothing is raised at call time.) -/
theorem configure_reject_persists {st : St} {id : Nat} {beh : MockBehavior}
    {cs : List Value} {e : Value} {ops : List Op} (arg : Value)
    (hmock : assocGet st.heap id = some (Obj.mock beh cs))
    (hlt : id < st.nextId)
    (hops : ops.all (preservesStub id) = true) :
    (invokeStub (runOps (configureReject st id e) ops) id arg).1 =
      some (Outcome.rejected e) ∧
    ∀ v, (invokeStub (runOps (configureReject st id e) ops) id arg).1 ≠
      some (Outcome.resolved v) := by
  have h1 := configureReject_heap_self e hmock
  have hlt1 : id < (configureReject st id e).nextId := by
    rw [configureReject_nextId]
    exact hlt
  obtain ⟨cs1, h2⟩ := runOps_heap_mock hops hlt1 h1
  constructor
  · unfold invokeStub
    rw [h2]
    simp [outcomeOf]
  · intro v hcon
    unfold invokeStub at hcon
    rw [h2] at hcon
    simp [outcomeOf] at hcon

/-- Witness for C5: configure stub 1 to reject with `mk 13`; after invoking
it and touching other paths it still rejects with `mk 13`. -/
theorem configure_reject_persists_w :
    assocGet (clientRead false initSt "user" "create").2.heap 1 =
      some (Obj.mock MockBehavior.default []) ∧
    (invokeStub
        (runOps (configureReject (clientRead false initSt "user" "create").2 1 (Value.mk 13))
          [Op.invoke 1 Value.null, Op.read false "post" "update"])
        1 Value.null).1 =
      some (Outcome.rejected (Value.mk 13)) :=
  ⟨by decide,
    (@configure_reject_persists ((clientRead false initSt "user" "create").2) 1
      MockBehavior.default [] (Value.mk 13)
      [Op.invoke 1 Value.null, Op.read false "post" "update"]
      Value.null (by decide) (by decide) (by decide)).1⟩

/-! ### Sharing of operation stubs across models, and transaction scoping -/

/-- C1 counterexample: `client.user.create` and `client.post.create` are the
SAME object (both reads return the stub with id 1), because
`createMainHandler` hands the model handler the very cache it itself stores
model proxies in, so all models of one scope share one stub per operation
name.  Configuring the stub through one model is observable through the
other. -/
theorem distinct_models_share_stub_cx :
    (clientRead false initSt "user" "create").1 = ReadRes.objRef 1 ∧
    (clientRead false (clientRead false initSt "user" "create").2 "post" "create").1 =
      ReadRes.objRef 1 ∧
    (invokeStub
        (configureResolve
          (clientRead false (clientRead false initSt "user" "create").2 "post" "create").2
          1 (Value.mk 7))
        1 Value.null).1 = some (Outcome.resolved (Value.mk 7)) := by
  decide

/-- C1 amended: for two distinct model names `M1`, `M2` and an operation
name `O` (none of them reserved words or each other), reading
`client[M1][O]` and then `client[M2][O]` yields the SAME Operation Stub
instance — the operation-stub cache is shared by all models of a scope, so
configuring or invoking one path does affect the other. -/
theorem distinct_models_share_stub (M1 M2 O : String)
    (h1 : M1 ≠ "$transaction") (h2 : M1 ≠ "_reset")
    (h3 : M2 ≠ "$transaction") (h4 : M2 ≠ "_reset")
    (h5 : O ≠ "then") (h6 : M1 ≠ O) (h7 : O ≠ M2) (h8 : M1 ≠ M2) :
    (clientRead false initSt M1 O).1 = ReadRes.objRef 1 ∧
    (clientRead false (clientRead false initSt M1 O).2 M2 O).1 = ReadRes.objRef 1 := by
  simp [clientRead, mainGet, modelGet, initSt, cacheOf, setCache, assocGet, assocSet,
    h1, h2, h3, h4, h5, h6, h7, h8]

/-- Witness for the amended C1 at `user`/`post`/`create`. -/
theorem distinct_models_share_stub_w :
    ("user" : String) ≠ "post" ∧
    (clientRead false initSt "user" "create").1 = ReadRes.objRef 1 ∧
    (clientRead false (clientRead false initSt "user" "create").2 "post" "create").1 =
      ReadRes.objRef 1 :=
  ⟨by decide,
    distinct_models_share_stub "user" "post" "create" (by decide) (by decide) (by decide)
      (by decide) (by decide) (by decide) (by decide) (by decide)⟩

/-- C6 (spec §8 property 6): invoking `$transaction` with a callback hands
the callback a fresh transaction-scoped client (`mainProxy true`, backed by
`transactionCache`) and returns the callback's result; the stub the
transaction scope resolves for `M.O` (id 5) is a different object from the
root scope's stub for `M.O` (id 1), and configuring and invoking it leaves
the root stub's configuration and call history untouched. -/
theorem txn_scope_independent (M O : String) (v arg arg2 : Value)
    (h1 : M ≠ "$transaction") (h2 : M ≠ "_reset") (h3 : O ≠ "then") (h4 : M ≠ O) :
    (clientRead false initSt M O).1 = ReadRes.objRef 1 ∧
    (∀ (α : Type) (fn : Nat → St → α × St) (s : St) (sid : Nat),
        txnInvoke fn s sid =
          fn (newTxClient (recordTxnCall s sid)).1 (newTxClient (recordTxnCall s sid)).2) ∧
    assocGet (runOp (clientRead false initSt M O).2 Op.txn).heap 3 =
      some (Obj.mainProxy true) ∧
    (clientRead true (runOp (clientRead false initSt M O).2 Op.txn) M O).1 =
      ReadRes.objRef 5 ∧
    assocGet
        (invokeStub
          (configureResolve
            (clientRead true (runOp (clientRead false initSt M O).2 Op.txn) M O).2 5 v)
          5 arg).2.heap 1 = some (Obj.mock MockBehavior.default []) ∧
    (invokeStub
        (configureResolve
          (clientRead true (runOp (clientRead false initSt M O).2 Op.txn) M O).2 5 v)
        5 arg).1 = some (Outcome.resolved v) ∧
    (invokeStub
        (invokeStub
          (configureResolve
            (clientRead true (runOp (clientRead false initSt M O).2 Op.txn) M O).2 5 v)
          5 arg).2 1 arg2).1 = some (Outcome.resolved Value.null) := by
  refine ⟨?_, ?_, ?_, ?_, ?_, ?_, ?_⟩ <;>
    first
    | (intro α fn s sid; rfl)
    | simp [clientRead, mainGet, modelGet, initSt, cacheOf, setCache, assocGet, assocSet,
        runOp, txnInvoke, recordTxnCall, newTxClient, invokeStub, configureResolve,
        outcomeOf, h1, h2, h3, h4]

/-- Witness for C6 at `user`/`create`. -/
theorem txn_scope_independent_w :
    ("user" : String) ≠ "create" ∧
    (clientRead true (runOp (clientRead false initSt "user" "create").2 Op.txn)
        "user" "create").1 = ReadRes.objRef 5 ∧
    (invokeStub
        (invokeStub
          (configureResolve
            (clientRead true (runOp (clientRead false initSt "user" "create").2 Op.txn)
              "user" "create").2 5 (Value.mk 8))
          5 Value.null).2 1 (Value.mk 2)).1 = some (Outcome.resolved Value.null) := by
  have h := txn_scope_independent "user" "create" (Value.mk 8) Value.null (Value.mk 2)
    (by decide) (by decide) (by decide) (by decide)
  exact ⟨by decide, h.2.2.2.1, h.2.2.2.2.2.2⟩

/-- C7 counterexample: inside the tx scope created by one `$transaction`
invocation, `T1.user.create` is stub 3; calling `$transaction` again from
that scope succeeds and yields a further scoped client, but `T2.user.create`
is the very same stub 3 — nested scopes share the single `transactionCache`,
so their stubs are not distinct. -/
theorem nested_txn_shares_stubs_cx :
    (clientRead true (runOps initSt [Op.txn]) "user" "create").1 = ReadRes.objRef 3 ∧
    (clientRead true
        (txnInvoke (fun _ s => ((), s))
          (mainGet true (clientRead true (runOps initSt [Op.txn]) "user" "create").2
            "$transaction").2
          4).2
        "user" "create").1 = ReadRes.objRef 3 := by
  decide

/-- C7 amended: nested `$transaction` invocation from inside a transaction
scope succeeds and yields a further, fresh scoped client instance (id 5,
distinct from the enclosing scope's client id 1) — but the nested scope and
the enclosing scope share the one `transactionCache`, so `T2[M][O]`
resolves to precisely the enclosing scope's stub (id 3); their stubs are
not independent. -/
theorem nested_txn_shares_stubs (M O : String)
    (h1 : M ≠ "$transaction") (h2 : M ≠ "_reset") (h3 : O ≠ "then") (h4 : M ≠ O) :
    (clientRead true (runOps initSt [Op.txn]) M O).1 = ReadRes.objRef 3 ∧
    (mainGet true (clientRead true (runOps initSt [Op.txn]) M O).2 "$transaction").1 =
      ReadRes.objRef 4 ∧
    (newTxClient (recordTxnCall
        (mainGet true (clientRead true (runOps initSt [Op.txn]) M O).2 "$transaction").2
        4)).1 = 5 ∧
    (clientRead true
        (newTxClient (recordTxnCall
          (mainGet true (clientRead true (runOps initSt [Op.txn]) M O).2 "$transaction").2
          4)).2 M O).1 = ReadRes.objRef 3 := by
  refine ⟨?_, ?_, ?_, ?_⟩ <;>
    simp [clientRead, mainGet, modelGet, initSt, cacheOf, setCache, assocGet, assocSet,
      runOps, runOp, txnInvoke, recordTxnCall, newTxClient, h1, h2, h3, h4]

/-- Witness for the amended C7 at `user`/`create`. -/
theorem nested_txn_shares_stubs_w :
    ("user" : String) ≠ "create" ∧
    (clientRead true (runOps initSt [Op.txn]) "user" "create").1 = ReadRes.objRef 3 ∧
    (clientRead true
        (newTxClient (recordTxnCall
          (mainGet true (clientRead true (runOps initSt [Op.txn]) "user" "create").2
            "$transaction").2
          4)).2 "user" "create").1 = ReadRes.objRef 3 := by
  have h := nested_txn_shares_stubs "user" "create" (by decide) (by decide) (by decide)
    (by decide)
  exact ⟨by decide, h.1, h.2.2.2⟩

/-! ### Reset, promise-detection and `$transaction` identity -/

/-- C8 (spec §4.1 reset semantics; §8 property 8): `_reset` clears both the
root cache and the transaction cache, so every stub read afterwards is a
freshly materialized `mock(() => null)`: empty call history, default
behavior, resolving to null when invoked. -/
theorem reset_clears_caches_and_defaults (st : St) (b : Bool) (M O : String) (id : Nat)
    (st' : St) (arg : Value) :
    (resetMockCalls st).mockCache = [] ∧
    (resetMockCalls st).transactionCache = [] ∧
    (M ≠ O →
      clientRead b (resetMockCalls st) M O = (ReadRes.objRef id, st') →
      assocGet st'.heap id = some (Obj.mock MockBehavior.default []) ∧
      (invokeStub st' id arg).1 = some (Outcome.resolved Value.null)) := by
  obtain ⟨hm, ht⟩ := resetMockCalls_caches st
  refine ⟨hm, ht, ?_⟩
  intro hMO h
  have hO : ∀ c : Bool, assocGet (cacheOf c (resetMockCalls st)) O = none := by
    intro c
    cases c
    · show assocGet (resetMockCalls st).mockCache O = none
      rw [hm]
      rfl
    · show assocGet (resetMockCalls st).transactionCache O = none
      rw [ht]
      rfl
  have hh := clientRead_fresh_default hO hMO h
  refine ⟨hh, ?_⟩
  unfold invokeStub
  rw [hh]
  simp [outcomeOf]

/-- Witness for C8: configure and invoke `user.create`, reset, and re-read
the path — the stub read after the reset (id 12, past the sweep's
allocations) is default with empty history and resolves to null. -/
theorem reset_clears_caches_and_defaults_w :
    ("user" : String) ≠ "create" ∧
    (invokeStub
        (clientRead false
          (resetMockCalls (runOps initSt [Op.read false "user" "create",
            Op.configResolve 1 (Value.mk 4), Op.invoke 1 Value.null]))
          "user" "create").2 12 Value.null).1 = some (Outcome.resolved Value.null) :=
  ⟨by decide,
    ((reset_clears_caches_and_defaults
        (runOps initSt [Op.read false "user" "create",
          Op.configResolve 1 (Value.mk 4), Op.invoke 1 Value.null])
        false "user" "create" 12
        (clientRead false
          (resetMockCalls (runOps initSt [Op.read false "user" "create",
            Op.configResolve 1 (Value.mk 4), Op.invoke 1 Value.null]))
          "user" "create").2 Value.null).2.2 (by decide) (by decide)).2⟩

/-- C9 counterexample: reading `"then"` through the MAIN handler (the root
client or a transaction-scoped client) does not return undefined — it
materializes and caches a model stand-in (a proxy at id 0), because only
`createModelHandler` has the `"then"` guard, `createMainHandler` does not. -/
theorem then_on_root_materializes_cx :
    (mainGet false initSt "then").1 = ReadRes.objRef 0 ∧
    (mainGet false initSt "then").1 ≠ ReadRes.undef ∧
    assocGet (mainGet false initSt "then").2.heap 0 = some (Obj.modelProxy false) := by
  decide

/-- C9 amended: the promise-detection guard exists only at the model level:
every Model Stand-in answers `undefined` for `"then"` (leaving the state
untouched), while the root and transaction-scoped clients treat `"then"`
like any model name and materialize a model stand-in for it. -/
theorem then_only_on_model_stand_in :
    (∀ (s : Bool) (st : St), modelGet s st "then" = (ReadRes.undef, st)) ∧
    (∀ b : Bool, (mainGet b initSt "then").1 = ReadRes.objRef 0 ∧
      assocGet (mainGet b initSt "then").2.heap 0 = some (Obj.modelProxy b)) := by
  constructor
  · intro s st
    unfold modelGet
    rw [if_pos rfl]
  · intro b
    cases b
    · exact ⟨by decide, by decide⟩
    · exact ⟨by decide, by decide⟩

/-- C10: every read of `$transaction` evaluates `mock(async (fn) => ...)`
afresh, so two successive reads return distinct heap objects (ids `nextId`
and `nextId + 1`), and a call recorded on the second is not observable on
the first, whose call count stays 0. -/
theorem txn_reads_fresh_each_time (b : Bool) (st : St) :
    mainGet b st "$transaction" =
      (ReadRes.objRef st.nextId,
        { st with
            nextId := st.nextId + 1,
            heap := assocSet st.heap st.nextId (Obj.txnEntry 0) }) ∧
    (mainGet b (mainGet b st "$transaction").2 "$transaction").1 =
      ReadRes.objRef (st.nextId + 1) ∧
    ReadRes.objRef (st.nextId + 1) ≠ ReadRes.objRef st.nextId ∧
    assocGet (recordTxnCall (mainGet b (mainGet b st "$transaction").2 "$transaction").2
        (st.nextId + 1)).heap st.nextId = some (Obj.txnEntry 0) ∧
    assocGet (recordTxnCall (mainGet b (mainGet b st "$transaction").2 "$transaction").2
        (st.nextId + 1)).heap (st.nextId + 1) = some (Obj.txnEntry 1) := by
  have e1 : mainGet b st "$transaction" =
      (ReadRes.objRef st.nextId,
        { st with
            nextId := st.nextId + 1,
            heap := assocSet st.heap st.nextId (Obj.txnEntry 0) }) := by
    unfold mainGet
    rw [if_pos rfl]
  have e2 : mainGet b (mainGet b st "$transaction").2 "$transaction" =
      (ReadRes.objRef (st.nextId + 1),
        { st with
            nextId := st.nextId + 2,
            heap := assocSet (assocSet st.heap st.nextId (Obj.txnEntry 0)) (st.nextId + 1)
              (Obj.txnEntry 0) }) := by
    rw [e1]
    unfold mainGet
    rw [if_pos rfl]
  have e3 : recordTxnCall (mainGet b (mainGet b st "$transaction").2 "$transaction").2
      (st.nextId + 1) =
      { st with
          nextId := st.nextId + 2,
          heap := assocSet (assocSet (assocSet st.heap st.nextId (Obj.txnEntry 0))
            (st.nextId + 1) (Obj.txnEntry 0)) (st.nextId + 1) (Obj.txnEntry 1) } := by
    rw [e2]
    unfold recordTxnCall
    rw [assocGet_assocSet_self]
  refine ⟨e1, by rw [e2], ?_, ?_, ?_⟩
  · intro hcon
    rw [ReadRes.objRef.injEq] at hcon
    omega
  · rw [e3]
    dsimp only
    rw [assocGet_assocSet_ne _ (Nat.succ_ne_self st.nextId),
      assocGet_assocSet_ne _ (Nat.succ_ne_self st.nextId), assocGet_assocSet_self]
  · rw [e3]
    dsimp only
    rw [assocGet_assocSet_self]

end BunMockPrisma
